import Mathlib

/-!
Verification development for the hydrogen-web build pipeline
(`scripts/build.mjs`-style source): the `AssetMap` asset registry, the
xxh32 content hasher, the service-worker cache-tier classifier, the
release fingerprint, and the output-directory cleanup helper.

The JavaScript source is shallowly embedded:

* Node's posix `path` functions (`join`, `normalize`, `dirname`,
  `extname`, `basename`, `isAbsolute`) are modelled over `List Char`
  exactly following Node's documented posix semantics.
* `xxhashjs`'s 32-bit hash (seed 0, UTF-8 input, decimal rendering of
  the digest) is implemented bit-faithfully with `Nat` arithmetic
  modulo 2^32.
* The `AssetMap` class becomes a structure with an insertion-ordered
  association list mirroring a JS `Map`; throwing operations return
  `Except String`.
* Filesystem writes are side effects irrelevant to the registry state
  and are dropped; `removeDirIfExists` takes the outcome of the
  underlying `fs.rmdir` call as an explicit argument.
-/

/-! ## Strings as character lists: small helpers -/

/-- JS `a.startsWith(b)`. -/
def strStartsWith (a b : String) : Bool :=
  b.data.isPrefixOf a.data

/-- JS `a.endsWith(b)`. -/
def strEndsWith (a b : String) : Bool :=
  b.data.isSuffixOf a.data

/-- JS `s.substr(n)` for a non-negative `n`: drop the first `n` characters. -/
def strDrop (s : String) (n : Nat) : String :=
  (s.data.drop n).asString

/-- Number of characters (all inputs here are ASCII, where JS
`String.length` agrees with the character count). -/
def strLen (s : String) : Nat :=
  s.data.length

/-- Join a list of strings with a separator (JS `Array.join`). -/
def joinSep (sep : String) : List String → String
  | [] => ""
  | [x] => x
  | x :: y :: xs => x ++ sep ++ joinSep sep (y :: xs)

/-! ## Node posix path functions -/

/-- Node posix `path.isAbsolute`: the path starts with a forward slash. -/
def isAbsolutePath (p : String) : Bool :=
  p.data.head? = some '/'

/-- Split a path into its `/`-separated segments (JS `p.split("/")`):
accumulator-based, keeps empty segments. -/
def splitSlashAux : List Char → List Char → List String
  | acc, [] => [acc.reverse.asString]
  | acc, c :: rest =>
    if c = '/' then acc.reverse.asString :: splitSlashAux [] rest
    else splitSlashAux (c :: acc) rest

/-- Split a path string on `/`. -/
def splitSlash (p : String) : List String :=
  splitSlashAux [] p.data

/-- The segment-normalisation stack of Node's `normalizeString`: drops
empty and `.` segments, resolves `..` against the previous segment,
keeping leading `..`s only when `allowAbove` is true (relative paths). -/
def normStack (allowAbove : Bool) : List String → List String → List String
  | stack, [] => stack.reverse
  | stack, s :: rest =>
    if s = "" ∨ s = "." then normStack allowAbove stack rest
    else if s = ".." then
      match stack with
      | t :: ts =>
        if t = ".." then normStack allowAbove (".." :: t :: ts) rest
        else normStack allowAbove ts rest
      | [] =>
        if allowAbove then normStack allowAbove [".."] rest
        else normStack allowAbove [] rest
    else normStack allowAbove (s :: stack) rest

/-- Whether the path ends with a forward slash. -/
def endsWithSlash (p : String) : Bool :=
  p.data.reverse.head? = some '/'

/-- Node posix `path.normalize`. -/
def pathNormalize (p : String) : String :=
  if p = "" then "."
  else
    let isAbs := isAbsolutePath p
    let trail := endsWithSlash p
    let body := joinSep "/" (normStack (!isAbs) [] (splitSlash p))
    if body = "" then
      if isAbs then "/" else if trail then "./" else "."
    else
      if isAbs then "/" ++ body ++ (if trail then "/" else "")
      else body ++ (if trail then "/" else "")

/-- Node posix `path.join` restricted to two arguments, as used by the
build script. -/
def pathJoin (a b : String) : String :=
  if a = "" then
    if b = "" then "." else pathNormalize b
  else
    if b = "" then pathNormalize a else pathNormalize (a ++ "/" ++ b)

/-- Node posix `path.resolve` on an already-absolute argument:
normalise and drop any trailing slash (the build script only resolves
the absolute target directory). -/
def pathResolveAbs (p : String) : String :=
  let body := joinSep "/" (normStack false [] (splitSlash p))
  if body = "" then "/" else "/" ++ body

/-- Node posix `path.dirname`'s backwards scan: returns the index of
the `/` preceding the last non-slash run, looking only at indices
`≥ 1`; `matched` tracks whether only slashes have been seen so far. -/
def dirnameFind (cs : List Char) : Nat → Bool → Option Nat
  | 0, _ => none
  | i + 1, matched =>
    if cs.getD (i + 1) ' ' = '/' then
      if matched then dirnameFind cs i matched else some (i + 1)
    else dirnameFind cs i false

/-- Node posix `path.dirname`. -/
def dirname (p : String) : String :=
  if p = "" then "."
  else
    let hasRoot := isAbsolutePath p
    match dirnameFind p.data (p.data.length - 1) true with
    | none => if hasRoot then "/" else "."
    | some e =>
      if hasRoot ∧ e = 1 then "//" else (p.data.take e).asString

/-- The final path component after stripping trailing slashes (the
basename of Node's scan, shared by `extname` and `basename`). -/
def lastComponent (p : String) : String :=
  let cs := p.data.reverse.dropWhile (· = '/')
  (cs.takeWhile (· ≠ '/')).reverse.asString

/-- Node posix `path.extname`: the suffix of the last component from
its final dot, unless that dot is the component's first character or
the component is exactly `..`. -/
def extname (p : String) : String :=
  let b := lastComponent p
  let afterDot := b.data.reverse.takeWhile (· ≠ '.')
  if afterDot.length = b.data.length then ""
  else
    let d := b.data.length - afterDot.length - 1
    if d = 0 then ""
    else if b = ".." then ""
    else (b.data.drop d).asString

/-- Node posix `path.basename(p, ext)`: the last component, with a
non-empty `ext` suffix removed unless it equals the whole component. -/
def basename (p ext : String) : String :=
  let b := lastComponent p
  if ext ≠ "" ∧ ext ≠ b ∧ strEndsWith b ext then
    (b.data.take (b.data.length - ext.data.length)).asString
  else b

/-! ## The xxh32 content hasher (`xxhashjs` h32, seed 0) -/

def xxhPrime1 : Nat := 2654435761
def xxhPrime2 : Nat := 2246822519
def xxhPrime3 : Nat := 3266489917
def xxhPrime4 : Nat := 668265263
def xxhPrime5 : Nat := 374761393

/-- Truncate to 32 bits. -/
def u32 (n : Nat) : Nat := n % 4294967296

/-- 32-bit left rotation of a value below 2^32. -/
def rotl32 (x r : Nat) : Nat :=
  u32 (x * 2 ^ r) + x / 2 ^ (32 - r)

/-- Little-endian 32-bit word from four bytes. -/
def leWord (b0 b1 b2 b3 : Nat) : Nat :=
  b0 + b1 * 256 + b2 * 65536 + b3 * 16777216

/-- One accumulator round of the 16-byte stripe loop. -/
def xxhRound (acc lane : Nat) : Nat :=
  u32 (rotl32 (u32 (acc + u32 (lane * xxhPrime2))) 13 * xxhPrime1)

/-- The stripe loop: consume 16-byte stripes while at least 16 bytes
remain, returning the four accumulators and the leftover bytes. -/
def xxhStripes : Nat → Nat → Nat → Nat → List Nat →
    Nat × Nat × Nat × Nat × List Nat
  | v1, v2, v3, v4,
    b0 :: b1 :: b2 :: b3 :: b4 :: b5 :: b6 :: b7 ::
    b8 :: b9 :: b10 :: b11 :: b12 :: b13 :: b14 :: b15 :: rest =>
    xxhStripes
      (xxhRound v1 (leWord b0 b1 b2 b3))
      (xxhRound v2 (leWord b4 b5 b6 b7))
      (xxhRound v3 (leWord b8 b9 b10 b11))
      (xxhRound v4 (leWord b12 b13 b14 b15)) rest
  | v1, v2, v3, v4, rest => (v1, v2, v3, v4, rest)

/-- The tail loop: 4-byte chunks while at least 4 bytes remain, then
single bytes. -/
def xxhTail : Nat → List Nat → Nat
  | acc, b0 :: b1 :: b2 :: b3 :: rest =>
    xxhTail (u32 (rotl32 (u32 (acc + u32 (leWord b0 b1 b2 b3 * xxhPrime3))) 17 * xxhPrime4)) rest
  | acc, b :: rest =>
    xxhTail (u32 (rotl32 (u32 (acc + b * xxhPrime5)) 11 * xxhPrime1)) rest
  | acc, [] => acc

/-- The final avalanche mix. -/
def xxhAvalanche (h : Nat) : Nat :=
  let h1 := u32 ((h ^^^ h / 2 ^ 15) * xxhPrime2)
  let h2 := u32 ((h1 ^^^ h1 / 2 ^ 13) * xxhPrime3)
  h2 ^^^ h2 / 2 ^ 16

/-- XXH32 of a byte sequence with seed 0. -/
def xxh32 (bytes : List Nat) : Nat :=
  let len := bytes.length
  let startAcc :=
    if 16 ≤ len then
      let r := xxhStripes (u32 (xxhPrime1 + xxhPrime2)) xxhPrime2 0
        (u32 (4294967296 - xxhPrime1)) bytes
      (u32 (rotl32 r.1 1 + rotl32 r.2.1 7 + rotl32 r.2.2.1 12 + rotl32 r.2.2.2.1 18),
        r.2.2.2.2)
    else (u32 xxhPrime5, bytes)
  xxhAvalanche (xxhTail (u32 (startAcc.1 + len)) startAcc.2)

/-- UTF-8 encoding of one character (as `xxhashjs` does before
hashing a JS string). -/
def utf8EncodeChar (c : Char) : List Nat :=
  let n := c.toNat
  if n < 128 then [n]
  else if n < 2048 then [192 + n / 64, 128 + n % 64]
  else if n < 65536 then [224 + n / 4096, 128 + n / 64 % 64, 128 + n % 64]
  else [240 + n / 262144, 128 + n / 4096 % 64, 128 + n / 64 % 64, 128 + n % 64]

/-- UTF-8 bytes of a string. -/
def utf8Bytes (s : String) : List Nat :=
  (s.data.map utf8EncodeChar).flatten

/-- `contentHash` from the build script on raw bytes: the xxh32 digest
with seed 0 (the digest is later rendered in decimal by `toString`). -/
def contentHash (bytes : List Nat) : Nat :=
  xxh32 bytes

/-- `contentHash` applied to a JS string (hashed as its UTF-8 bytes). -/
def contentHashStr (s : String) : Nat :=
  xxh32 (utf8Bytes s)

deriving instance DecidableEq for Except

/-! ## JS `Map` with insertion order, as an association list -/

/-- JS `Map.prototype.set`: update in place when the key exists
(keeping its position), otherwise append. -/
def mapSet (m : List (String × String)) (k v : String) :
    List (String × String) :=
  if m.any (fun e => e.1 = k) then
    m.map (fun e => if e.1 = k then (k, v) else e)
  else m ++ [(k, v)]

/-- JS `Map.prototype.get`. -/
def mapGet (m : List (String × String)) (k : String) : Option String :=
  (m.find? (fun e => e.1 = k)).map (fun e => e.2)

/-! ## The `AssetMap` registry -/

/-- The `AssetMap` class: an absolute target directory (already passed
through `path.resolve`) and the logical-path → hashed-path map. -/
structure AssetMap where
  targetDir : String
  assets : List (String × String)
deriving DecidableEq, Repr

namespace AssetMap

/-- The `AssetMap` constructor: `path.resolve` the target directory
(the build script always passes an absolute directory). -/
def mk' (targetDir : String) : AssetMap :=
  ⟨pathResolveAbs targetDir, []⟩

/-- `_toRelPath`: keep relative paths unchanged; an absolute path must
start with the target directory (a plain string-prefix test in the
source) and has the prefix plus one further character dropped. -/
def toRelPath (m : AssetMap) (p : String) : Except String String :=
  if isAbsolutePath p then
    if strStartsWith p m.targetDir then
      .ok (strDrop p (strLen m.targetDir + 1))
    else
      .error ("absolute path " ++ p ++ " that is not within target dir " ++ m.targetDir)
  else .ok p

/-- `_create`: hash the content, derive the hashed destination path
`dir/(basename-hash)ext`, record the mapping and return the hashed
path. -/
def create (m : AssetMap) (p : String) (content : List Nat) :
    Except String (AssetMap × String) := do
  let relPath ← m.toRelPath p
  let hash := contentHash content
  let dir := dirname relPath
  let ext := extname relPath
  let base := basename relPath ext
  let dstRelPath := pathJoin dir (base ++ "-" ++ toString hash ++ ext)
  .ok ({ m with assets := mapSet m.assets relPath dstRelPath }, dstRelPath)

/-- `write`: `_create` plus the filesystem write of the content (a
side effect outside the registry state), returning the hashed path. -/
def write (m : AssetMap) (p : String) (content : List Nat) :
    Except String (AssetMap × String) :=
  m.create p content

/-- `writeUnhashed`: record the identity mapping for the relative path
and write the content verbatim. -/
def writeUnhashed (m : AssetMap) (p : String) (_content : List Nat) :
    Except String (AssetMap × String) := do
  let relPath ← m.toRelPath p
  .ok ({ m with assets := mapSet m.assets relPath relPath }, relPath)

/-- `resolve`: look up the relative path; a missing key — or, via JS
falsiness, an empty stored value — raises `unknown path` listing the
known keys. -/
def resolve (m : AssetMap) (p : String) : Except String String := do
  let relPath ← m.toRelPath p
  match mapGet m.assets relPath with
  | some r =>
    if r = "" then
      .error ("unknown path: " ++ relPath ++ ", only know " ++
        joinSep ", " (m.assets.map (fun e => e.1)))
    else .ok r
  | none =>
    .error ("unknown path: " ++ relPath ++ ", only know " ++
      joinSep ", " (m.assets.map (fun e => e.1)))

/-- `addSubMap`: requires the sub-map's directory to start (as a
string) with this map's directory; every entry of the sub-map is
re-keyed by joining both halves onto the remainder of the sub-map's
directory after dropping the parent directory plus one character. -/
def addSubMap (m sub : AssetMap) : Except String AssetMap :=
  if strStartsWith sub.targetDir m.targetDir then
    let relSubRoot := strDrop sub.targetDir (strLen m.targetDir + 1)
    .ok { m with
      assets := sub.assets.foldl
        (fun acc e => mapSet acc (pathJoin relSubRoot e.1) (pathJoin relSubRoot e.2))
        m.assets }
  else
    .error ("map directory doesn't start with this directory: " ++
      sub.targetDir ++ " " ++ m.targetDir)

/-- `isUnhashed`: whether the stored value equals the key; a missing
key — or an empty stored value, via JS falsiness — raises. -/
def isUnhashed (m : AssetMap) (p : String) : Except String Bool :=
  match mapGet m.assets p with
  | some r =>
    if r = "" then .error ("Unknown asset: " ++ p)
    else .ok (p = r)
  | none => .error ("Unknown asset: " ++ p)

/-- `has`. -/
def hasPath (m : AssetMap) (p : String) : Bool :=
  (mapGet m.assets p).isSome

/-- The hashed (resolved) halves of all entries, in iteration order. -/
def resolvedPaths (m : AssetMap) : List String :=
  m.assets.map (fun e => e.2)

end AssetMap

/-! ## The release fingerprint (`build`, lines 84–86) -/

/-- Sort a list of strings lexicographically (JS `Array.sort` with the
default comparator on ASCII strings). -/
def sortStrings (l : List String) : List String :=
  l.insertionSort (· ≤ ·)

/-- The global release fingerprint: the content digest of the sorted,
comma-joined hashed paths of the registry. -/
def globalHashOf (m : AssetMap) : Nat :=
  contentHashStr (joinSep "," (sortStrings m.resolvedPaths))

/-! ## The cache-tier classifier (`buildServiceWorker`, lines 244–259) -/

/-- The explicit exclusion list. -/
def SERVICEWORKER_NONCACHED_ASSETS : List String :=
  ["hydrogen-legacy.js", "olm_legacy.js", "sw.js"]

/-- `isPreCached`: extension-based precache test, exempting the worker
script. -/
def isPreCached (asset : String) : Bool :=
  strEndsWith asset ".svg" ||
  strEndsWith asset ".png" ||
  strEndsWith asset ".css" ||
  strEndsWith asset ".wasm" ||
  (strEndsWith asset ".js" && asset ≠ "worker.js")

/-- The three placeholder lists of the service-worker template. -/
structure SwAssetLists where
  unhashedPreCachedAssets : List String
  hashedPreCachedAssets : List String
  hashedCachedOnRequestAssets : List String
deriving DecidableEq, Repr

/-- The body of `buildServiceWorker`'s classification loop for one
`(unresolved, resolved)` entry. -/
def classifyStep (acc : SwAssetLists) (e : String × String) : SwAssetLists :=
  if e.1 ∈ SERVICEWORKER_NONCACHED_ASSETS then acc
  else if e.1 = e.2 then
    { acc with unhashedPreCachedAssets := acc.unhashedPreCachedAssets ++ [e.2] }
  else if isPreCached e.1 then
    { acc with hashedPreCachedAssets := acc.hashedPreCachedAssets ++ [e.2] }
  else
    { acc with hashedCachedOnRequestAssets := acc.hashedCachedOnRequestAssets ++ [e.2] }

/-- `buildServiceWorker`'s classification of a registry's entries: the
unhashed-precache list is seeded with `index.html` before the loop. -/
def classifyAssets (entries : List (String × String)) : SwAssetLists :=
  entries.foldl classifyStep ⟨["index.html"], [], []⟩

/-! ## `removeDirIfExists` (lines 318–326) -/

/-- A filesystem error with its `code` property. -/
structure FsError where
  code : String
deriving DecidableEq, Repr

/-- `removeDirIfExists`: given the outcome of `fs.rmdir(targetDir,
{recursive: true})`, swallow an `ENOENT` failure and re-raise every
other error unchanged. -/
def removeDirIfExists (rmdirResult : Except FsError Unit) : Except FsError Unit :=
  match rmdirResult with
  | .ok _ => .ok ()
  | .error err => if err.code = "ENOENT" then .ok () else .error err

/-! ## Derived notions used to state the claims -/

/-- A normalised relative path: every `/`-separated segment is
non-empty and neither `.` nor `..` (the shape of every path the build
script itself registers). -/
def isNormRel (p : String) : Bool :=
  (splitSlash p).all (fun s => !(s = "" ∨ s = "." ∨ s = ".."))

/-- `child` is a strict descendant of the directory `parent`:
it extends `parent` past a path separator. -/
def isDescendantDir (child parent : String) : Bool :=
  strStartsWith child (parent ++ "/")

/-- An absolute path lies under a root directory: it is the root
itself or a strict descendant of it. -/
def liesUnderRoot (root p : String) : Bool :=
  p = root || strStartsWith p (root ++ "/")

/-- Cache-tier test: the entry is excluded. -/
def tierExcluded (e : String × String) : Bool :=
  e.1 ∈ SERVICEWORKER_NONCACHED_ASSETS

/-- Cache-tier test: unhashed-precache. -/
def tierUnhashed (e : String × String) : Bool :=
  !tierExcluded e && e.1 = e.2

/-- Cache-tier test: hashed-precache. -/
def tierHashedPre (e : String × String) : Bool :=
  !tierExcluded e && !(e.1 = e.2 : Bool) && isPreCached e.1

/-- Cache-tier test: hashed, cached on request. -/
def tierOnRequest (e : String × String) : Bool :=
  !tierExcluded e && !(e.1 = e.2 : Bool) && !isPreCached e.1

/-- The example registry of the spec's cache-tier test: the entry
HTML (unhashed), the app script, the worker script and the legacy
script (the latter in the exclusion list). -/
def exampleRegistry : List (String × String) :=
  [("index.html", "index.html"),
   ("hydrogen.js", "hydrogen-abc123.js"),
   ("worker.js", "worker-def456.js"),
   ("hydrogen-legacy.js", "hydrogen-legacy-ghi789.js")]

/-! ## Lemmas: the JS map -/

theorem mapGet_cons (e : String × String) (es : List (String × String))
    (k : String) :
    mapGet (e :: es) k = if e.1 = k then some e.2 else mapGet es k := by
  by_cases h : e.1 = k <;> simp [mapGet, List.find?_cons, h]

theorem mapGet_map_update_self (m : List (String × String)) (k v : String)
    (hany : m.any (fun e => e.1 = k) = true) :
    mapGet (m.map (fun e => if e.1 = k then (k, v) else e)) k = some v := by
  induction m with
  | nil => simp at hany
  | cons e es ih =>
    rw [List.map_cons]
    by_cases hek : e.1 = k
    · rw [if_pos hek, mapGet_cons]
      simp
    · rw [if_neg hek, mapGet_cons, if_neg hek]
      exact ih (by simpa [List.any_cons, hek] using hany)

theorem mapGet_append_single (m : List (String × String)) (k v : String)
    (hany : m.any (fun e => e.1 = k) = false) :
    mapGet (m ++ [(k, v)]) k = some v := by
  induction m with
  | nil => simp [mapGet_cons, mapGet]
  | cons e es ih =>
    have hek : ¬ e.1 = k := by
      simp [List.any_cons] at hany
      exact fun h => by simp [h] at hany
    rw [List.cons_append, mapGet_cons, if_neg hek]
    refine ih ?_
    simp [List.any_cons] at hany ⊢
    exact hany.2

theorem mapGet_map_update_other (m : List (String × String)) (k v k' : String)
    (hne : k' ≠ k) :
    mapGet (m.map (fun e => if e.1 = k then (k, v) else e)) k' = mapGet m k' := by
  induction m with
  | nil => rfl
  | cons e es ih =>
    rw [List.map_cons]
    by_cases hek : e.1 = k
    · rw [if_pos hek, mapGet_cons, mapGet_cons]
      have h1 : ¬ ((k, v).1 = k') := fun h => hne h.symm
      have h2 : ¬ (e.1 = k') := by rw [hek]; exact fun h => hne h.symm
      rw [if_neg h1, if_neg h2]
      exact ih
    · rw [if_neg hek, mapGet_cons, mapGet_cons]
      by_cases hk' : e.1 = k'
      · rw [if_pos hk', if_pos hk']
      · rw [if_neg hk', if_neg hk']
        exact ih

theorem mapGet_append_single_other (m : List (String × String)) (k v k' : String)
    (hne : k' ≠ k) :
    mapGet (m ++ [(k, v)]) k' = mapGet m k' := by
  induction m with
  | nil =>
    have : ¬ ((k, v).1 = k') := fun h => hne h.symm
    simp [mapGet_cons, mapGet, this]
  | cons e es ih =>
    rw [List.cons_append, mapGet_cons, mapGet_cons]
    by_cases hk' : e.1 = k'
    · rw [if_pos hk', if_pos hk']
    · rw [if_neg hk', if_neg hk']
      exact ih

theorem mapGet_mapSet_self (m : List (String × String)) (k v : String) :
    mapGet (mapSet m k v) k = some v := by
  rw [mapSet]
  split
  next h => exact mapGet_map_update_self m k v h
  next h => exact mapGet_append_single m k v (by rwa [Bool.not_eq_true] at h)

theorem mapGet_mapSet_other (m : List (String × String)) (k v k' : String)
    (hne : k' ≠ k) : mapGet (mapSet m k v) k' = mapGet m k' := by
  rw [mapSet]
  split
  · exact mapGet_map_update_other m k v k' hne
  · exact mapGet_append_single_other m k v k' hne

/-! ## Lemmas: folding `mapSet` over a list of entries -/

theorem mapGet_foldl_set_of_ne (g h : String × String → String)
    (l : List (String × String)) (init : List (String × String)) (k : String)
    (hk : ∀ e ∈ l, g e ≠ k) :
    mapGet (l.foldl (fun acc e => mapSet acc (g e) (h e)) init) k = mapGet init k := by
  induction l generalizing init with
  | nil => rfl
  | cons e es ih =>
    rw [List.foldl_cons, ih _ (fun x hx => hk x (List.mem_cons_of_mem _ hx))]
    exact mapGet_mapSet_other init (g e) (h e) k
      (fun heq => hk e (List.mem_cons_self _ _) heq.symm)

theorem mapGet_foldl_set_mem (g h : String × String → String)
    (l : List (String × String)) (hnd : (l.map g).Nodup)
    (init : List (String × String)) :
    ∀ e ∈ l, mapGet (l.foldl (fun acc e => mapSet acc (g e) (h e)) init) (g e) =
      some (h e) := by
  induction l generalizing init with
  | nil => intro e he; cases he
  | cons x xs ih =>
    intro e he
    rw [List.foldl_cons]
    rw [List.map_cons, List.nodup_cons] at hnd
    rcases List.mem_cons.mp he with rfl | hmem
    · have hx : ∀ e' ∈ xs, g e' ≠ g e :=
        fun e' he' heq => hnd.1 (heq ▸ List.mem_map_of_mem g he')
      rw [mapGet_foldl_set_of_ne g h xs _ (g e) hx]
      exact mapGet_mapSet_self _ _ _
    · exact ih hnd.2 _ e hmem

/-! ## Lemmas: non-emptiness of normalised paths -/

theorem str_append_ne_empty (s t : String) (h : s ≠ "") : s ++ t ≠ "" := by
  intro he
  apply h
  apply String.ext
  have hd : s.data ++ t.data = [] := by
    rw [← String.data_append, he]
  simpa using (List.append_eq_nil.mp hd).1

theorem pathNormalize_ne_empty (p : String) : pathNormalize p ≠ "" := by
  simp only [pathNormalize]
  split
  · decide
  · split
    · split
      · decide
      · split <;> decide
    · split
      · exact str_append_ne_empty _ _ (str_append_ne_empty "/" _ (by decide))
      · next hbody _ => exact str_append_ne_empty _ _ hbody

theorem pathJoin_ne_empty (a b : String) : pathJoin a b ≠ "" := by
  simp only [pathJoin]
  split
  · split
    · decide
    · exact pathNormalize_ne_empty b
  · split
    · exact pathNormalize_ne_empty a
    · exact pathNormalize_ne_empty _

/-! ## Lemmas: the classifier loop in closed form -/

theorem foldl_classifyStep (entries : List (String × String)) (acc : SwAssetLists) :
    entries.foldl classifyStep acc =
      ⟨acc.unhashedPreCachedAssets ++ (entries.filter tierUnhashed).map (fun e => e.2),
       acc.hashedPreCachedAssets ++ (entries.filter tierHashedPre).map (fun e => e.2),
       acc.hashedCachedOnRequestAssets ++ (entries.filter tierOnRequest).map (fun e => e.2)⟩ := by
  induction entries generalizing acc with
  | nil => cases acc; simp
  | cons e es ih =>
    rw [List.foldl_cons, ih]
    by_cases h1 : e.1 ∈ SERVICEWORKER_NONCACHED_ASSETS
    · simp [classifyStep, h1, tierUnhashed, tierHashedPre, tierOnRequest,
        tierExcluded, List.filter_cons]
    · by_cases h2 : e.1 = e.2
      · have h1' : e.2 ∉ SERVICEWORKER_NONCACHED_ASSETS := h2 ▸ h1
        simp [classifyStep, h1, h1', h2, tierUnhashed, tierHashedPre, tierOnRequest,
          tierExcluded, List.filter_cons]
      · by_cases h3 : isPreCached e.1
        · simp [classifyStep, h1, h2, h3, tierUnhashed, tierHashedPre,
            tierOnRequest, tierExcluded, List.filter_cons]
        · simp [classifyStep, h1, h2, h3, tierUnhashed, tierHashedPre,
            tierOnRequest, tierExcluded, List.filter_cons]

/-! ## Lemmas: path strings -/

theorem data_asString (l : List Char) : l.asString.data = l := rfl

theorem data_append_slash (a b : String) :
    (a ++ "/" ++ b).data = a.data ++ '/' :: b.data := by
  rw [String.data_append, String.data_append]
  simp [show ("/" : String).data = ['/'] from rfl]

theorem str_ne_empty_iff (s : String) : s ≠ "" ↔ s.data ≠ [] := by
  constructor
  · intro h hd
    exact h (String.ext (by simp [hd]))
  · intro h he
    exact h (by rw [he])

theorem strStartsWith_append (a b : String) : strStartsWith (a ++ b) a = true := by
  rw [strStartsWith, List.isPrefixOf_iff_prefix, String.data_append]
  exact List.prefix_append _ _

theorem isAbsolutePath_append_left (a b : String) (ha : a ≠ "") :
    isAbsolutePath (a ++ b) = isAbsolutePath a := by
  rw [isAbsolutePath, isAbsolutePath, String.data_append]
  cases hd : a.data with
  | nil => exact absurd (String.ext (by simp [hd])) ha
  | cons c cs => simp

theorem endsWithSlash_append_right (a b : String) (hb : b ≠ "") :
    endsWithSlash (a ++ b) = endsWithSlash b := by
  rw [endsWithSlash, endsWithSlash, String.data_append, List.reverse_append]
  cases hd : b.data with
  | nil => exact absurd (String.ext (by simp [hd])) hb
  | cons c cs => simp

theorem strDrop_append_slash (a b : String) :
    strDrop (a ++ "/" ++ b) (strLen a + 1) = b := by
  rw [strDrop, strLen, data_append_slash]
  have h : a.data ++ '/' :: b.data = (a.data ++ ['/']) ++ b.data := by simp
  have hlen : a.data.length + 1 = (a.data ++ ['/']).length := by simp
  rw [h, hlen, List.drop_left]
  exact String.asString_toList b

/-! ## Lemmas: splitting and joining on slashes -/

theorem splitSlashAux_ne_nil (acc : List Char) (cs : List Char) :
    splitSlashAux acc cs ≠ [] := by
  induction cs generalizing acc with
  | nil => simp [splitSlashAux]
  | cons c rest ih =>
    by_cases h : c = '/' <;> simp only [splitSlashAux, h, if_pos, if_neg,
      ite_true, ite_false, reduceIte, ne_eq, not_false_eq_true] <;>
      first
      | simp
      | exact ih _

theorem splitSlash_ne_nil (p : String) : splitSlash p ≠ [] :=
  splitSlashAux_ne_nil [] p.data

theorem joinSep_splitSlashAux (cs : List Char) :
    ∀ acc, joinSep "/" (splitSlashAux acc cs) = (acc.reverse ++ cs).asString := by
  induction cs with
  | nil => intro acc; simp [splitSlashAux, joinSep]
  | cons c rest ih =>
    intro acc
    by_cases h : c = '/'
    · subst h
      rw [splitSlashAux, if_pos rfl]
      obtain ⟨y, ys, hys⟩ : ∃ y ys, splitSlashAux ([] : List Char) rest = y :: ys := by
        cases hh : splitSlashAux ([] : List Char) rest with
        | nil => exact absurd hh (splitSlashAux_ne_nil _ _)
        | cons y ys => exact ⟨y, ys, rfl⟩
      rw [hys, joinSep, ← hys, ih []]
      apply String.ext
      simp [String.data_append, data_asString, show ("/" : String).data = ['/'] from rfl]
    · rw [splitSlashAux, if_neg h, ih (c :: acc)]
      apply String.ext
      simp [data_asString]

theorem joinSep_splitSlash (p : String) : joinSep "/" (splitSlash p) = p := by
  rw [splitSlash, joinSep_splitSlashAux]
  simpa using String.asString_toList p

theorem splitSlashAux_append (cs : List Char) :
    ∀ acc (ds : List Char), splitSlashAux acc (cs ++ '/' :: ds) =
      splitSlashAux acc cs ++ splitSlashAux [] ds := by
  induction cs with
  | nil => intro acc ds; simp [splitSlashAux]
  | cons c rest ih =>
    intro acc ds
    by_cases h : c = '/' <;> simp [splitSlashAux, h, ih]

theorem splitSlash_append (a b : String) :
    splitSlash (a ++ "/" ++ b) = splitSlash a ++ splitSlash b := by
  rw [splitSlash, splitSlash, splitSlash, data_append_slash]
  exact splitSlashAux_append a.data [] b.data

theorem joinSep_append_sep (sep : String) (l1 l2 : List String)
    (h1 : l1 ≠ []) (h2 : l2 ≠ []) :
    joinSep sep (l1 ++ l2) = joinSep sep l1 ++ sep ++ joinSep sep l2 := by
  induction l1 with
  | nil => exact absurd rfl h1
  | cons x xs ih =>
    cases xs with
    | nil =>
      cases l2 with
      | nil => exact absurd rfl h2
      | cons y ys => simp [joinSep]
    | cons x' xs' =>
      have hstep : joinSep sep ((x :: x' :: xs') ++ l2) =
          x ++ sep ++ joinSep sep ((x' :: xs') ++ l2) := rfl
      have hstep2 : joinSep sep (x :: x' :: xs') =
          x ++ sep ++ joinSep sep (x' :: xs') := rfl
      rw [hstep, hstep2, ih (by simp)]
      apply String.ext
      simp [String.data_append]

/-! ## Lemmas: normalised relative paths pass through `pathJoin` -/

theorem normStack_plain (ab : Bool) (segs : List String) :
    (∀ s ∈ segs, ¬(s = "" ∨ s = "." ∨ s = "..")) →
    ∀ stack, normStack ab stack segs = stack.reverse ++ segs := by
  induction segs with
  | nil => intro _ stack; simp [normStack]
  | cons s rest ih =>
    intro hsegs stack
    have hs := hsegs s (List.mem_cons_self _ _)
    have h1 : ¬(s = "" ∨ s = ".") :=
      fun h => hs (h.elim (fun h => Or.inl h) (fun h => Or.inr (Or.inl h)))
    have h2 : ¬(s = "..") := fun h => hs (Or.inr (Or.inr h))
    simp only [normStack, h1, h2, if_false, ite_false]
    rw [ih (fun x hx => hsegs x (List.mem_cons_of_mem _ hx)) (s :: stack)]
    simp

theorem isNormRel_segs (p : String) (h : isNormRel p = true) :
    ∀ s ∈ splitSlash p, ¬(s = "" ∨ s = "." ∨ s = "..") := by
  intro s hs
  have := List.all_eq_true.mp h s hs
  simpa using this

theorem isNormRel_ne_empty (p : String) (h : isNormRel p = true) : p ≠ "" := by
  intro he
  rw [he] at h
  exact absurd h (by decide)

theorem isNormRel_not_abs (p : String) (h : isNormRel p = true) :
    isAbsolutePath p = false := by
  cases hd : p.data with
  | nil => simp [isAbsolutePath, hd]
  | cons c cs =>
    simp only [isAbsolutePath, hd, List.head?_cons]
    by_cases hc : c = '/'
    · exfalso
      have hsp : splitSlash p = "" :: splitSlashAux [] cs := by
        rw [splitSlash, hd, hc]
        simp [splitSlashAux, show ([] : List Char).asString = "" from rfl]
      exact isNormRel_segs p h "" (hsp ▸ List.mem_cons_self _ _) (Or.inl rfl)
    · simp [hc]

theorem isNormRel_not_trail (p : String) (h : isNormRel p = true) :
    endsWithSlash p = false := by
  cases hr : p.data.reverse with
  | nil => simp [endsWithSlash, hr]
  | cons c cs =>
    simp only [endsWithSlash, hr, List.head?_cons]
    by_cases hc : c = '/'
    · exfalso
      have hd : p.data = cs.reverse ++ ['/'] := by
        have := congrArg List.reverse hr
        simpa [hc] using this
      have hsp : splitSlash p = splitSlashAux [] cs.reverse ++ [""] := by
        rw [splitSlash, hd]
        have := splitSlashAux_append cs.reverse ([] : List Char) ([] : List Char)
        simpa [splitSlashAux] using this
      exact isNormRel_segs p h ""
        (hsp ▸ List.mem_append_right _ (List.mem_singleton.mpr rfl)) (Or.inl rfl)
    · simp [hc]

theorem pathJoin_normRel (a b : String) (ha : isNormRel a = true)
    (hb : isNormRel b = true) : pathJoin a b = a ++ "/" ++ b := by
  have hane := isNormRel_ne_empty a ha
  have hbne := isNormRel_ne_empty b hb
  rw [pathJoin, if_neg hane, if_neg hbne]
  have hpne : a ++ "/" ++ b ≠ "" :=
    str_append_ne_empty _ _ (str_append_ne_empty a "/" hane)
  rw [pathNormalize, if_neg hpne]
  have habs : isAbsolutePath (a ++ "/" ++ b) = false := by
    rw [isAbsolutePath_append_left _ _ (str_append_ne_empty a "/" hane),
      isAbsolutePath_append_left a "/" hane]
    exact isNormRel_not_abs a ha
  have htrail : endsWithSlash (a ++ "/" ++ b) = false := by
    rw [endsWithSlash_append_right _ b hbne]
    exact isNormRel_not_trail b hb
  have hsegs : ∀ s ∈ splitSlash a ++ splitSlash b, ¬(s = "" ∨ s = "." ∨ s = "..") := by
    intro s hs
    rcases List.mem_append.mp hs with hs' | hs'
    · exact isNormRel_segs a ha s hs'
    · exact isNormRel_segs b hb s hs'
  have hbody : ∀ ab, joinSep "/" (normStack ab []
      (splitSlash (a ++ "/" ++ b))) = a ++ "/" ++ b := by
    intro ab
    rw [splitSlash_append, normStack_plain _ _ hsegs []]
    simp only [List.reverse_nil, List.nil_append]
    rw [joinSep_append_sep _ _ _ (splitSlash_ne_nil a) (splitSlash_ne_nil b),
      joinSep_splitSlash, joinSep_splitSlash]
  simp only [habs, htrail]
  rw [hbody, if_neg hpne]
  simp

/-! ## Lemmas: `_toRelPath` and sorting -/

theorem toRelPath_rel (m : AssetMap) (p : String) (h : isAbsolutePath p = false) :
    m.toRelPath p = .ok p := by
  simp [AssetMap.toRelPath, h]

theorem toRelPath_under (m : AssetMap) (rest : String)
    (habs : isAbsolutePath m.targetDir = true) :
    m.toRelPath (m.targetDir ++ "/" ++ rest) = .ok rest := by
  have hdne : m.targetDir ≠ "" := by
    intro he
    rw [he] at habs
    exact absurd habs (by decide)
  have h1 : isAbsolutePath (m.targetDir ++ "/" ++ rest) = true := by
    rw [isAbsolutePath_append_left _ _ (str_append_ne_empty _ "/" hdne),
      isAbsolutePath_append_left _ "/" hdne]
    exact habs
  have h2 : strStartsWith (m.targetDir ++ "/" ++ rest) m.targetDir = true := by
    have hassoc : m.targetDir ++ "/" ++ rest = m.targetDir ++ ("/" ++ rest) := by
      apply String.ext
      simp [String.data_append]
    rw [hassoc]
    exact strStartsWith_append _ _
  simp [AssetMap.toRelPath, h1, h2, strDrop_append_slash]

theorem toRelPath_outside (m : AssetMap) (p : String)
    (habs : isAbsolutePath p = true) (hsw : strStartsWith p m.targetDir = false) :
    m.toRelPath p =
      .error ("absolute path " ++ p ++ " that is not within target dir " ++ m.targetDir) := by
  simp [AssetMap.toRelPath, habs, hsw]

theorem sortStrings_perm_eq (l1 l2 : List String) (h : l1.Perm l2) :
    sortStrings l1 = sortStrings l2 :=
  List.eq_of_perm_of_sorted
    (((List.perm_insertionSort _ l1).trans h).trans (List.perm_insertionSort _ l2).symm)
    (List.sorted_insertionSort _ l1) (List.sorted_insertionSort _ l2)

/-! ## The claims -/

/-- C1: for a parent registry and a sub-registry whose root is the
parent's root extended by the normalised relative offset `off`,
`addSubMap` succeeds and adds, for every entry `(logical, hashed)` of
the sub-registry, exactly the entry `(off/logical, off/hashed)`: the
same offset is joined onto both halves (for normalised paths
`path.join` is plain prefixing) and no entry is dropped. -/
theorem c1_addSubMap_rekeys (m sub : AssetMap) (off : String)
    (hroot : sub.targetDir = m.targetDir ++ "/" ++ off)
    (hoff : isNormRel off = true)
    (hentries : sub.assets.all (fun e => isNormRel e.1 && isNormRel e.2) = true)
    (hkeys : (sub.assets.map (fun e => e.1)).Nodup) :
    ∃ m', m.addSubMap sub = .ok m' ∧
      ∀ e ∈ sub.assets,
        mapGet m'.assets (off ++ "/" ++ e.1) = some (off ++ "/" ++ e.2) := by
  have hsw : strStartsWith sub.targetDir m.targetDir = true := by
    rw [hroot]
    have hassoc : m.targetDir ++ "/" ++ off = m.targetDir ++ ("/" ++ off) := by
      apply String.ext
      simp [String.data_append]
    rw [hassoc]
    exact strStartsWith_append _ _
  have hdrop : strDrop sub.targetDir (strLen m.targetDir + 1) = off := by
    rw [hroot, strDrop_append_slash]
  have haddeq : m.addSubMap sub = .ok
      { m with
        assets := List.foldl
          (fun acc e => mapSet acc (pathJoin off e.1) (pathJoin off e.2))
          m.assets sub.assets } := by
    simp [AssetMap.addSubMap, hsw, hdrop]
  refine ⟨_, haddeq, ?_⟩
  intro e he
  have hnr := List.all_eq_true.mp hentries e he
  rw [Bool.and_eq_true] at hnr
  have hmapeq : sub.assets.map (fun e => pathJoin off e.1) =
      (sub.assets.map (fun e => e.1)).map (fun k => off ++ "/" ++ k) := by
    rw [List.map_map]
    apply List.map_congr_left
    intro x hx
    have hx' := List.all_eq_true.mp hentries x hx
    rw [Bool.and_eq_true] at hx'
    exact pathJoin_normRel off x.1 hoff hx'.1
  have hnd : (sub.assets.map (fun e => pathJoin off e.1)).Nodup := by
    rw [hmapeq]
    refine List.Nodup.map ?_ hkeys
    intro x y hxy
    have hdata := congrArg String.data hxy
    rw [data_append_slash, data_append_slash] at hdata
    have htail := List.append_cancel_left hdata
    exact String.ext (List.cons.inj htail).2
  have hgot := mapGet_foldl_set_mem (fun e => pathJoin off e.1)
    (fun e => pathJoin off e.2) sub.assets hnd m.assets e he
  simp only at hgot
  rw [pathJoin_normRel off e.1 hoff hnr.1, pathJoin_normRel off e.2 hoff hnr.2] at hgot
  simpa using hgot

theorem c1_addSubMap_rekeys_witness :
    ((AssetMap.mk "/r/themes/dark"
        [("a.css", "a-1.css"), ("img/b.svg", "img/b-2.svg")]).targetDir =
      (AssetMap.mk "/r" []).targetDir ++ "/" ++ "themes/dark") ∧
    isNormRel "themes/dark" = true ∧
    ((AssetMap.mk "/r/themes/dark"
        [("a.css", "a-1.css"), ("img/b.svg", "img/b-2.svg")]).assets.all
      (fun e => isNormRel e.1 && isNormRel e.2) = true) ∧
    (∃ m', (AssetMap.mk "/r" []).addSubMap
        (AssetMap.mk "/r/themes/dark" [("a.css", "a-1.css"), ("img/b.svg", "img/b-2.svg")]) =
        .ok m' ∧
      ∀ e ∈ (AssetMap.mk "/r/themes/dark"
          [("a.css", "a-1.css"), ("img/b.svg", "img/b-2.svg")]).assets,
        mapGet m'.assets ("themes/dark" ++ "/" ++ e.1) =
          some ("themes/dark" ++ "/" ++ e.2)) :=
  ⟨by decide, by decide, by decide,
    c1_addSubMap_rekeys _ _ "themes/dark" (by decide) (by decide) (by decide) (by decide)⟩

/-- C2: after `write(p, c)` on a relative logical path `p`,
`resolve(p)` returns exactly the hashed path that `write` returned. -/
theorem c2_resolve_after_write (m m' : AssetMap) (p r : String) (c : List Nat)
    (hrel : isAbsolutePath p = false) (hw : m.write p c = .ok (m', r)) :
    m'.resolve p = .ok r := by
  rw [AssetMap.write, AssetMap.create, toRelPath_rel m p hrel] at hw
  simp only [Bind.bind, Except.bind, Except.ok.injEq, Prod.mk.injEq] at hw
  obtain ⟨hm', hr⟩ := hw
  subst hm'
  subst hr
  rw [AssetMap.resolve, toRelPath_rel _ p hrel]
  simp only [Bind.bind, Except.bind]
  rw [mapGet_mapSet_self]
  simp [pathJoin_ne_empty (dirname p) _]

theorem c2_resolve_after_write_witness :
    isAbsolutePath "index.html" = false ∧
    (AssetMap.mk "/t" []).write "index.html" (utf8Bytes "hello") =
      .ok (AssetMap.mk "/t" [("index.html", "index-4211111929.html")],
        "index-4211111929.html") ∧
    (AssetMap.mk "/t" [("index.html", "index-4211111929.html")]).resolve "index.html" =
      .ok "index-4211111929.html" :=
  ⟨by decide, by decide,
    c2_resolve_after_write (AssetMap.mk "/t" []) _ "index.html" _ (utf8Bytes "hello")
      (by decide) (by decide)⟩

/-- C3 (amended): the release fingerprint equals the content digest of
the sorted, comma-joined list of the registry's hashed paths, and is
invariant under any permutation of the registry's iteration order.
(The further claim that it changes whenever a single hashed path
changes fails: the digest is 32 bits and distinct path lists can
collide, see the counterexample.) -/
theorem c3_fingerprint_amended :
    (∀ m : AssetMap, globalHashOf m =
      contentHashStr (joinSep "," (sortStrings m.resolvedPaths))) ∧
    (∀ m1 m2 : AssetMap, m1.resolvedPaths.Perm m2.resolvedPaths →
      globalHashOf m1 = globalHashOf m2) := by
  refine ⟨fun m => rfl, fun m1 m2 h => ?_⟩
  rw [globalHashOf, globalHashOf, sortStrings_perm_eq _ _ h]

theorem c3_fingerprint_amended_witness :
    ((AssetMap.mk "/t" [("a", "b.js"), ("c", "d.css")]).resolvedPaths.Perm
      (AssetMap.mk "/t" [("c", "d.css"), ("a", "b.js")]).resolvedPaths) ∧
    globalHashOf (AssetMap.mk "/t" [("a", "b.js"), ("c", "d.css")]) =
      globalHashOf (AssetMap.mk "/t" [("c", "d.css"), ("a", "b.js")]) :=
  ⟨by decide, c3_fingerprint_amended.2 _ _ (by decide)⟩

/-- C3 counterexample: two registries whose single hashed path differs
(`oho.js` vs `aq45.js`) share the same release fingerprint — an xxh32
collision — so the fingerprint does not change whenever a single
hashed path in the set changes. -/
theorem c3_fingerprint_counterexample :
    (AssetMap.mk "/t" [("p", "oho.js")]).resolvedPaths ≠
      (AssetMap.mk "/t" [("p", "aq45.js")]).resolvedPaths ∧
    globalHashOf (AssetMap.mk "/t" [("p", "oho.js")]) =
      globalHashOf (AssetMap.mk "/t" [("p", "aq45.js")]) := by
  exact ⟨by decide, by decide⟩

/-- C4: the classifier applies, per entry and in this order: explicit
exclusion list → excluded; logical equals hashed → unhashed-precache;
precached extension (`.svg`/`.png`/`.css`/`.wasm`/`.js` except the
worker script) → hashed-precache; otherwise → hashed-on-request (the
`tier*` predicates encode the earlier tests negatively, fixing the
order).  On the spec's example registry, `index.html` is
unhashed-precache, the app script hashed-precache, the worker script
hashed-on-request and the legacy script excluded (it appears in no
list). -/
theorem c4_cache_tier_classifier :
    (∀ entries, classifyAssets entries =
      ⟨"index.html" :: (entries.filter tierUnhashed).map (fun e => e.2),
       (entries.filter tierHashedPre).map (fun e => e.2),
       (entries.filter tierOnRequest).map (fun e => e.2)⟩) ∧
    classifyAssets exampleRegistry =
      ⟨["index.html", "index.html"], ["hydrogen-abc123.js"], ["worker-def456.js"]⟩ := by
  refine ⟨fun entries => ?_, by decide⟩
  rw [classifyAssets, foldl_classifyStep]
  rfl

/-- C5 (amended): `addSubMap` fails — with an error naming both
directories — exactly when the sub-registry's root does not start, as
a plain string, with this registry's root; when the string-prefix test
passes the merge succeeds.  (The string-prefix test is weaker than
"nested under": see the counterexample with a sibling directory.) -/
theorem c5_addSubMap_check_amended (m sub : AssetMap) :
    (strStartsWith sub.targetDir m.targetDir = false →
      m.addSubMap sub = .error ("map directory doesn't start with this directory: " ++
        sub.targetDir ++ " " ++ m.targetDir)) ∧
    (strStartsWith sub.targetDir m.targetDir = true →
      ∃ m', m.addSubMap sub = .ok m') := by
  refine ⟨fun h => ?_, fun h => ?_⟩
  · simp [AssetMap.addSubMap, h]
  · refine ⟨{ m with
        assets := List.foldl
          (fun acc e =>
            mapSet acc (pathJoin (strDrop sub.targetDir (strLen m.targetDir + 1)) e.1)
              (pathJoin (strDrop sub.targetDir (strLen m.targetDir + 1)) e.2))
          m.assets sub.assets }, ?_⟩
    simp [AssetMap.addSubMap, h]

theorem c5_addSubMap_check_amended_witness :
    strStartsWith "/a/x" "/a/b" = false ∧
    (AssetMap.mk "/a/b" []).addSubMap (AssetMap.mk "/a/x" []) =
      .error ("map directory doesn't start with this directory: " ++
        "/a/x" ++ " " ++ "/a/b") ∧
    strStartsWith "/a/b/c" "/a/b" = true ∧
    (∃ m', (AssetMap.mk "/a/b" []).addSubMap (AssetMap.mk "/a/b/c" []) = .ok m') :=
  ⟨by decide,
    (c5_addSubMap_check_amended (AssetMap.mk "/a/b" []) (AssetMap.mk "/a/x" [])).1 (by decide),
    by decide,
    (c5_addSubMap_check_amended (AssetMap.mk "/a/b" []) (AssetMap.mk "/a/b/c" [])).2 (by decide)⟩

/-- C5 counterexample: a sub-registry rooted at the sibling directory
`/a/bc` is not a descendant of the parent root `/a/b`, yet `addSubMap`
succeeds (it even merges the entry un-prefixed), contradicting the
claim that the merge succeeds exactly for nested roots. -/
theorem c5_addSubMap_counterexample :
    isDescendantDir "/a/bc" "/a/b" = false ∧
    "/a/bc" ≠ "/a/b" ∧
    (AssetMap.mk "/a/b" []).addSubMap (AssetMap.mk "/a/bc" [("x", "y")]) =
      .ok (AssetMap.mk "/a/b" [("x", "y")]) := by
  exact ⟨by decide, by decide, by decide⟩

/-- C6 (amended): an absolute input that fails the string-prefix test
against the registry root raises an error naming the offending path;
an absolute input of the shape `root ++ "/" ++ rest` is stored as
`rest`; relative inputs are stored as given.  (The string-prefix test
accepts some absolute paths that do not lie under the root — see the
counterexample, where the stored key is itself absolute.) -/
theorem c6_toRelPath_amended (m : AssetMap) (p : String) :
    (isAbsolutePath p = true → strStartsWith p m.targetDir = false →
      m.toRelPath p =
        .error ("absolute path " ++ p ++ " that is not within target dir " ++ m.targetDir)) ∧
    (isAbsolutePath p = false → m.toRelPath p = .ok p) ∧
    (∀ rest, isAbsolutePath m.targetDir = true →
      m.toRelPath (m.targetDir ++ "/" ++ rest) = .ok rest) :=
  ⟨fun h1 h2 => toRelPath_outside m p h1 h2,
   fun h => toRelPath_rel m p h,
   fun rest h => toRelPath_under m rest h⟩

theorem c6_toRelPath_amended_witness :
    isAbsolutePath "/elsewhere/f.js" = true ∧
    strStartsWith "/elsewhere/f.js" "/a/b" = false ∧
    (AssetMap.mk "/a/b" []).toRelPath "/elsewhere/f.js" =
      .error ("absolute path " ++ "/elsewhere/f.js" ++
        " that is not within target dir " ++ "/a/b") ∧
    isAbsolutePath "c.js" = false ∧
    (AssetMap.mk "/a/b" []).toRelPath "c.js" = .ok "c.js" ∧
    isAbsolutePath "/a/b" = true ∧
    (AssetMap.mk "/a/b" []).toRelPath ("/a/b" ++ "/" ++ "sub/d.js") = .ok "sub/d.js" :=
  ⟨by decide, by decide,
    (c6_toRelPath_amended (AssetMap.mk "/a/b" []) "/elsewhere/f.js").1 (by decide) (by decide),
    by decide,
    (c6_toRelPath_amended (AssetMap.mk "/a/b" []) "c.js").2.1 (by decide),
    by decide,
    (c6_toRelPath_amended (AssetMap.mk "/a/b" []) "c.js").2.2 "sub/d.js" (by decide)⟩

/-- C6 counterexample: the absolute path `/a/bc/x` does not lie under
the root `/a/b`, yet registration does not fail: `_toRelPath` returns
`/x` — itself an absolute string — and `writeUnhashed` stores it as a
key, violating both the claimed failure and the claimed invariant that
every stored key is relative. -/
theorem c6_toRelPath_counterexample :
    liesUnderRoot "/a/b" "/a/bc/x" = false ∧
    (AssetMap.mk "/a/b" []).toRelPath "/a/bc/x" = .ok "/x" ∧
    isAbsolutePath "/x" = true ∧
    (AssetMap.mk "/a/b" []).writeUnhashed "/a/bc/x" [] =
      .ok (AssetMap.mk "/a/b" [("/x", "/x")], "/x") := by
  exact ⟨by decide, by decide, by decide, by decide⟩

/-- C7: `write(p, c)` on a relative logical path records and returns
the hashed path `path.join(dirname p, basename-hash ++ ext)` where
`basename` strips the extension, `hash` is the decimal content digest
of `c` and `ext` is the extension of `p`.  The right-hand side does
not depend on the registry, so two writes of byte-identical content
under the same logical path yield the same hashed path. -/
theorem c7_write_hashed_path (m : AssetMap) (p : String) (c : List Nat)
    (hrel : isAbsolutePath p = false) :
    m.write p c = .ok
      ({ m with
          assets := mapSet m.assets p
            (pathJoin (dirname p)
              (basename p (extname p) ++ "-" ++ toString (contentHash c) ++ extname p)) },
        pathJoin (dirname p)
          (basename p (extname p) ++ "-" ++ toString (contentHash c) ++ extname p)) := by
  rw [AssetMap.write, AssetMap.create, toRelPath_rel m p hrel]
  rfl

theorem c7_write_hashed_path_witness :
    isAbsolutePath "index.html" = false ∧
    (AssetMap.mk "/t" []).write "index.html" (utf8Bytes "hello") = .ok
      (AssetMap.mk "/t" (mapSet [] "index.html"
          (pathJoin (dirname "index.html")
            (basename "index.html" (extname "index.html") ++ "-" ++
              toString (contentHash (utf8Bytes "hello")) ++ extname "index.html"))),
        pathJoin (dirname "index.html")
          (basename "index.html" (extname "index.html") ++ "-" ++
            toString (contentHash (utf8Bytes "hello")) ++ extname "index.html")) :=
  ⟨by decide, c7_write_hashed_path (AssetMap.mk "/t" []) "index.html" (utf8Bytes "hello") (by decide)⟩

/-- C8: `writeUnhashed("index.html", x)` returns `"index.html"`, after
which `resolve("index.html")` returns `"index.html"` unchanged and
`isUnhashed("index.html")` is true; in general `writeUnhashed` records
the identity mapping for its (relative) logical path. -/
theorem c8_writeUnhashed_identity (m : AssetMap) (c : List Nat) :
    (∃ m', m.writeUnhashed "index.html" c = .ok (m', "index.html") ∧
      m'.resolve "index.html" = .ok "index.html" ∧
      m'.isUnhashed "index.html" = .ok true) ∧
    (∀ p, isAbsolutePath p = false →
      m.writeUnhashed p c = .ok ({ m with assets := mapSet m.assets p p }, p)) := by
  constructor
  · refine ⟨{ m with assets := mapSet m.assets "index.html" "index.html" }, ?_, ?_, ?_⟩
    · rw [AssetMap.writeUnhashed, toRelPath_rel m _ (by decide)]
      rfl
    · rw [AssetMap.resolve, toRelPath_rel _ _ (by decide)]
      simp only [Bind.bind, Except.bind]
      rw [mapGet_mapSet_self]
      simp
    · rw [AssetMap.isUnhashed]
      simp only
      rw [mapGet_mapSet_self]
      simp
  · intro p hp
    rw [AssetMap.writeUnhashed, toRelPath_rel m p hp]
    rfl

theorem c8_writeUnhashed_identity_witness :
    (∃ m', (AssetMap.mk "/t" []).writeUnhashed "index.html" [] = .ok (m', "index.html") ∧
      m'.resolve "index.html" = .ok "index.html" ∧
      m'.isUnhashed "index.html" = .ok true) ∧
    (isAbsolutePath "a/b.js" = false ∧
      (AssetMap.mk "/t" []).writeUnhashed "a/b.js" [] =
        .ok (AssetMap.mk "/t" (mapSet [] "a/b.js" "a/b.js"), "a/b.js")) :=
  ⟨(c8_writeUnhashed_identity (AssetMap.mk "/t" []) []).1,
    by decide,
    (c8_writeUnhashed_identity (AssetMap.mk "/t" []) []).2 "a/b.js" (by decide)⟩

/-- C9: `removeDirIfExists` treats an `ENOENT` failure of the
recursive delete as success and re-raises every other filesystem
error unchanged. -/
theorem c9_removeDirIfExists :
    removeDirIfExists (.ok ()) = .ok () ∧
    (∀ e : FsError, e.code = "ENOENT" → removeDirIfExists (.error e) = .ok ()) ∧
    (∀ e : FsError, e.code ≠ "ENOENT" → removeDirIfExists (.error e) = .error e) := by
  refine ⟨rfl, fun e he => ?_, fun e he => ?_⟩ <;> simp [removeDirIfExists, he]

theorem c9_removeDirIfExists_witness :
    (FsError.mk "ENOENT").code = "ENOENT" ∧
    removeDirIfExists (.error (FsError.mk "ENOENT")) = .ok () ∧
    (FsError.mk "EACCES").code ≠ "ENOENT" ∧
    removeDirIfExists (.error (FsError.mk "EACCES")) = .error (FsError.mk "EACCES") :=
  ⟨by decide,
    c9_removeDirIfExists.2.1 (FsError.mk "ENOENT") (by decide),
    by decide,
    c9_removeDirIfExists.2.2 (FsError.mk "EACCES") (by decide)⟩

/-- C10: the unhashed-precache list starts with `"index.html"` for
every registry — it is seeded before the loop, even for a registry
with no `index.html` entry — and the service-worker script `sw.js` is
skipped by the loop (it is in the exclusion list), so neither entry is
derived from registry contents at classification time. -/
theorem c10_seeded_index_html :
    (∀ entries, (classifyAssets entries).unhashedPreCachedAssets.head? =
      some "index.html") ∧
    classifyAssets [] = ⟨["index.html"], [], []⟩ ∧
    classifyAssets [("a.js", "a-1.js")] = ⟨["index.html"], ["a-1.js"], []⟩ ∧
    (∀ acc r, classifyStep acc ("sw.js", r) = acc) := by
  refine ⟨fun entries => ?_, by decide, by decide, fun acc r => ?_⟩
  · rw [classifyAssets, foldl_classifyStep]
    rfl
  · simp [classifyStep,
      show ("sw.js" : String) ∈ SERVICEWORKER_NONCACHED_ASSETS from by decide]
